import Mathlib

/-!
Verification of the distributed projection-and-reduction engine of
`sumk_dft_tools.py` (class `SumkDFTTools`).

The embedding below translates the relevant parts of the source into Lean:

* Green's-function matrix entries are modelled by `CQ`, complex numbers with
  rational parts (the source uses machine complex floats; all the claims are
  about exact summation / ordering structure, so exact rationals are the
  faithful exact-arithmetic model).
* The MPI k-point sweeps (`mpi.slice_array` + `mpi.all_reduce`) are modelled
  as list sums over an explicit worker partition.
* The per-routine validation code (scheme tags, shell lists, archive inputs)
  is modelled by executable functions mirroring the Python conditionals,
  including Python's substring semantics for `x in 'string'`.
-/

/-- Complex numbers with rational real and imaginary parts: the exact model
of the complex matrix entries used throughout `sumk_dft_tools.py`. -/
structure CQ where
  re : ℚ
  im : ℚ
deriving DecidableEq, Repr

namespace CQ

@[ext] theorem ext {a b : CQ} (hre : a.re = b.re) (him : a.im = b.im) : a = b := by
  cases a; cases b; simp_all

instance : Zero CQ := ⟨⟨0, 0⟩⟩
instance : One CQ := ⟨⟨1, 0⟩⟩
instance : Add CQ := ⟨fun a b => ⟨a.re + b.re, a.im + b.im⟩⟩
instance : Neg CQ := ⟨fun a => ⟨-a.re, -a.im⟩⟩
instance : Mul CQ := ⟨fun a b => ⟨a.re * b.re - a.im * b.im, a.re * b.im + a.im * b.re⟩⟩

theorem zero_def : (0 : CQ) = ⟨0, 0⟩ := rfl
theorem one_def : (1 : CQ) = ⟨1, 0⟩ := rfl
theorem add_def (a b : CQ) : a + b = ⟨a.re + b.re, a.im + b.im⟩ := rfl
theorem neg_def (a : CQ) : -a = ⟨-a.re, -a.im⟩ := rfl
theorem mul_def (a b : CQ) :
    a * b = ⟨a.re * b.re - a.im * b.im, a.re * b.im + a.im * b.re⟩ := rfl

@[simp] theorem zero_re : (0 : CQ).re = 0 := rfl
@[simp] theorem zero_im : (0 : CQ).im = 0 := rfl
@[simp] theorem one_re : (1 : CQ).re = 1 := rfl
@[simp] theorem one_im : (1 : CQ).im = 0 := rfl
@[simp] theorem add_re (a b : CQ) : (a + b).re = a.re + b.re := rfl
@[simp] theorem add_im (a b : CQ) : (a + b).im = a.im + b.im := rfl
@[simp] theorem neg_re (a : CQ) : (-a).re = -a.re := rfl
@[simp] theorem neg_im (a : CQ) : (-a).im = -a.im := rfl
@[simp] theorem mul_re (a b : CQ) : (a * b).re = a.re * b.re - a.im * b.im := rfl
@[simp] theorem mul_im (a b : CQ) : (a * b).im = a.re * b.im + a.im * b.re := rfl

instance : CommRing CQ where
  add_assoc a b c := by ext <;> simp <;> ring
  zero_add a := by ext <;> simp
  add_zero a := by ext <;> simp
  add_comm a b := by ext <;> simp <;> ring
  neg_add_cancel a := by ext <;> simp
  mul_assoc a b c := by ext <;> simp <;> ring
  one_mul a := by ext <;> simp
  mul_one a := by ext <;> simp
  left_distrib a b c := by ext <;> simp <;> ring
  right_distrib a b c := by ext <;> simp <;> ring
  mul_comm a b := by ext <;> simp <;> ring
  zero_mul a := by ext <;> simp
  mul_zero a := by ext <;> simp
  nsmul := nsmulRec
  zsmul := zsmulRec

/-- Complex conjugation on `CQ`. -/
def conj (a : CQ) : CQ := ⟨a.re, -a.im⟩

@[simp] theorem conj_re (a : CQ) : (conj a).re = a.re := rfl
@[simp] theorem conj_im (a : CQ) : (conj a).im = -a.im := rfl

instance : StarRing CQ where
  star := conj
  star_involutive a := by simp [conj]
  star_mul a b := by ext <;> (simp [conj]; ring)
  star_add a b := by ext <;> simp [conj, add_comm]

@[simp] theorem star_re (a : CQ) : (star a).re = a.re := rfl
@[simp] theorem star_im (a : CQ) : (star a).im = -a.im := rfl

/-- Embedding of a rational (a real scalar, e.g. a Brillouin-zone weight)
into `CQ`. -/
def ofQ (q : ℚ) : CQ := ⟨q, 0⟩

@[simp] theorem ofQ_re (q : ℚ) : (ofQ q).re = q := rfl
@[simp] theorem ofQ_im (q : ℚ) : (ofQ q).im = 0 := rfl

/-- `CQ.im` as an additive monoid homomorphism (used to push the imaginary
part through traces and sums). -/
def imHom : CQ →+ ℚ where
  toFun := CQ.im
  map_zero' := rfl
  map_add' _ _ := rfl

@[simp] theorem imHom_apply (a : CQ) : imHom a = a.im := rfl

end CQ

/-! ## The distributed k-sum (MPI sweep) model

`density_of_states` (line 210), `gen_Akw` (line 902) and `partial_charges`
(line 994) iterate `for ik in mpi.slice_array(ikarray)`: each worker receives
a slice of the index array and accumulates into zero-initialised worker-local
arrays; `mpi.all_reduce` then sums the worker-local arrays element-wise.
We model a worker's assigned slice as a list of k-indices and the reduction
as the sum of the per-worker partial sums.

`occupations` (lines 433-441) is different: it builds
`ikarray = numpy.array(range(self.n_k))` but then iterates
`for ik in range(self.n_k)` — every worker runs the FULL k-range and writes
`occik[bname][ik][0,:,:] = gf.density().real` for every k, after which
`occik[sp] = mpi.all_reduce(occik[sp])` still sums across workers.
-/

/-- One worker's partial sum over its assigned k-indices (the body of the
`for ik in mpi.slice_array(ikarray)` loop accumulating `contrib ik`). -/
def workerSum {M : Type _} [AddCommMonoid M] (contrib : ℕ → M) (ks : List ℕ) : M :=
  (ks.map contrib).sum

/-- The cross-worker `mpi.all_reduce`: element-wise sum of all worker-local
partial sums, one list entry of `parts` per worker. -/
def allReduce {M : Type _} [AddCommMonoid M] (contrib : ℕ → M) (parts : List (List ℕ)) : M :=
  (parts.map (workerSum contrib)).sum

/-- The global value of one k-indexed entry produced by `occupations`:
every worker computes the entry for EVERY k (the loop at line 434 is
`for ik in range(self.n_k)`, not a slice), assigns it into its local array,
and `mpi.all_reduce` sums the workers' arrays. -/
def occupationsGlobalEntry {M : Type _} [AddCommMonoid M] (contrib : ℕ → M)
    (nWorkers : ℕ) (ik : ℕ) : M :=
  ((List.range nWorkers).map (fun _ => contrib ik)).sum

theorem workerSum_nil {M : Type _} [AddCommMonoid M] (contrib : ℕ → M) :
    workerSum contrib [] = 0 := rfl

/-- Summing the per-worker partial sums equals summing over the concatenation
of all the slices. -/
theorem allReduce_eq_sum_flatten {M : Type _} [AddCommMonoid M] (contrib : ℕ → M)
    (parts : List (List ℕ)) :
    allReduce contrib parts = workerSum contrib parts.flatten := by
  induction parts with
  | nil => rfl
  | cons p ps ih =>
      simp only [allReduce, workerSum, List.map_cons, List.sum_cons,
        List.flatten_cons, List.map_append, List.sum_append] at ih ⊢
      rw [ih]

/-- Exactly-once guarantee of the slice-based sweeps: if the partition is a
disjoint cover of `0..n_k-1` (its concatenation is a permutation of
`range n_k`), the reduced result is the plain sum over all k-points. -/
theorem allReduce_eq_of_cover {M : Type _} [AddCommMonoid M] (contrib : ℕ → M)
    (parts : List (List ℕ)) (n_k : ℕ)
    (h : parts.flatten.Perm (List.range n_k)) :
    allReduce contrib parts = workerSum contrib (List.range n_k) := by
  rw [allReduce_eq_sum_flatten]
  exact List.Perm.sum_eq (List.Perm.map contrib h)

/-! ## Total DOS accumulation (`density_of_states`, lines 209-232) -/

/-- `G_latt_w *= self.bz_weights[ik]` (line 213): scaling of the complex
lattice Green's function matrix by the real Brillouin-zone quadrature
weight. -/
def scaleQ {n : ℕ} (w : ℚ) (G : Matrix (Fin n) (Fin n) CQ) :
    Matrix (Fin n) (Fin n) CQ :=
  Matrix.of fun i j => CQ.ofQ w * G i j

/-- Per-k accumulation into `DOS[bname]` at one frequency (line 220):
`DOS[bname] -= gf.data.imag.trace(axis1=1, axis2=2)/numpy.pi`, with `gf`
already scaled by `bz_weights[ik]`.  The constant `1/pi` is kept outside
(it is applied in the claim statement). -/
def dosContrib {n : ℕ} (w : ℚ) (G : Matrix (Fin n) (Fin n) CQ) : ℚ :=
  -(Matrix.trace (scaleQ w G)).im

/-- The reduced total DOS (times pi) at one frequency for one spin block:
worker-sliced accumulation of `dosContrib` followed by `mpi.all_reduce`
(lines 209-232).  `d ik` is the k-dependent orbital count, `w ik` the weight
`bz_weights[ik]`, `G ik` the lattice Green's function at k-point `ik`
(at a fixed frequency and spin block). -/
def dosSweep (d : ℕ → ℕ) (w : ℕ → ℚ)
    (G : (ik : ℕ) → Matrix (Fin (d ik)) (Fin (d ik)) CQ)
    (parts : List (List ℕ)) : ℚ :=
  allReduce (fun ik => dosContrib (w ik) (G ik)) parts

theorem im_trace_scaleQ {n : ℕ} (w : ℚ) (G : Matrix (Fin n) (Fin n) CQ) :
    (Matrix.trace (scaleQ w G)).im = w * (Matrix.trace G).im := by
  unfold scaleQ Matrix.trace
  rw [← CQ.imHom_apply, ← CQ.imHom_apply, map_sum, map_sum, Finset.mul_sum]
  refine Finset.sum_congr rfl fun i _ => ?_
  simp [Matrix.diag]

theorem dosContrib_eq {n : ℕ} (w : ℚ) (G : Matrix (Fin n) (Fin n) CQ) :
    dosContrib w G = w * (-(Matrix.trace G).im) := by
  unfold dosContrib
  rw [im_trace_scaleQ]
  ring

/-- Cast helper: the exact rational weighted sum, divided by pi, equals the
claim's real-valued weighted sum of `-1/pi` times imaginary trace parts. -/
theorem dos_weighted_cast (d : ℕ → ℕ) (w : ℕ → ℚ)
    (G : (ik : ℕ) → Matrix (Fin (d ik)) (Fin (d ik)) CQ) (l : List ℕ) :
    (((l.map (fun ik => w ik * (-(Matrix.trace (G ik)).im))).sum : ℚ) : ℝ) / Real.pi
      = (l.map
          (fun ik => (w ik : ℝ) * (-1 / Real.pi * ((Matrix.trace (G ik)).im : ℝ)))).sum := by
  induction l with
  | nil => simp
  | cons a t ih =>
      simp only [List.map_cons, List.sum_cons, Rat.cast_add, add_div, ih]
      push_cast
      ring

/-- C4: for every spin block and every frequency, the total DOS produced by
the worker-sliced sweep and cross-worker reduction equals the
Brillouin-zone-weighted sum over all k-points of minus one over pi times the
imaginary part of the trace of that k-point's lattice Green's function,
for every partition of the k-range that is a disjoint cover (exact
arithmetic). -/
theorem C4_total_dos_eq_weighted_trace_sum (d : ℕ → ℕ) (w : ℕ → ℚ)
    (G : (ik : ℕ) → Matrix (Fin (d ik)) (Fin (d ik)) CQ)
    (n_k : ℕ) (parts : List (List ℕ))
    (h : parts.flatten.Perm (List.range n_k)) :
    ((dosSweep d w G parts : ℚ) : ℝ) / Real.pi
      = ((List.range n_k).map
          (fun ik => (w ik : ℝ) * (-1 / Real.pi * ((Matrix.trace (G ik)).im : ℝ)))).sum := by
  have hq : dosSweep d w G parts
      = ((List.range n_k).map (fun ik => w ik * (-(Matrix.trace (G ik)).im))).sum := by
    unfold dosSweep
    rw [allReduce_eq_of_cover _ _ _ h]
    unfold workerSum
    congr 1
    exact List.map_congr_left fun ik _ => dosContrib_eq (w ik) (G ik)
  rw [hq, dos_weighted_cast]

/-- Concrete inputs for the C4 witness: two k-points of dimension 1,
weight 1/2 each, Green's function entry `i` (so the imaginary trace part
is 1), partitioned across two workers in reversed order. -/
def c4dim : ℕ → ℕ := fun _ => 1

def c4w : ℕ → ℚ := fun _ => 1 / 2

def c4G : (ik : ℕ) → Matrix (Fin (c4dim ik)) (Fin (c4dim ik)) CQ :=
  fun _ => Matrix.of fun _ _ => ⟨0, 1⟩

def c4parts : List (List ℕ) := [[1], [0]]

/-- Witness for C4 at a concrete two-worker partition of two k-points. -/
theorem C4_total_dos_eq_weighted_trace_sum_witness :
    c4parts.flatten.Perm (List.range 2) ∧
      ((dosSweep c4dim c4w c4G c4parts : ℚ) : ℝ) / Real.pi
        = ((List.range 2).map
            (fun ik => (c4w ik : ℝ) *
              (-1 / Real.pi * ((Matrix.trace (c4G ik)).im : ℝ)))).sum :=
  ⟨by decide, C4_total_dos_eq_weighted_trace_sum c4dim c4w c4G 2 c4parts (by decide)⟩

/-- C1 (failing part, `occupations`): with two workers and a single k-point
whose per-k contribution is 1, the reduced occupation entry is 2 — the
k-point contributes once per worker, not exactly once (the loop at line 434
is `for ik in range(self.n_k)` instead of `for ik in mpi.slice_array(ikarray)`,
yet line 441 still sum-reduces across workers). -/
theorem C1_occupations_double_count :
    occupationsGlobalEntry (fun _ => (1 : ℚ)) 2 0 = 2 ∧ (2 : ℚ) ≠ 1 := by
  constructor
  · norm_num [occupationsGlobalEntry, List.range_succ]
  · norm_num

/-! ## Projection dispatcher (`proj_type_G_loc`, lines 285-355) and the
wien2k partial-projector loops -/

/-- Modelled from the spec: `SumkDFT.downfold` (defined in `sumk_dft.py`,
which is not part of this source tree) projects one k-point's lattice
Green's function into a shell's local subspace by sandwiching it between a
(partial) projector matrix and its conjugate transpose (spec 4.2:
"contribution = projector-sandwiched lattice Green's function"; the
`gf_inp` template argument of the source only provides the target shape, the
returned value is a fresh object — spec 4.2 "Side effects: none beyond
returning a fresh value object"). -/
def downfold {dsh n : ℕ} (P : Matrix (Fin dsh) (Fin n) CQ)
    (Glatt : Matrix (Fin n) (Fin n) CQ) : Matrix (Fin dsh) (Fin dsh) CQ :=
  P * Glatt * P.conjTranspose

/-- The `proj_type == 'wien2k'` branch of `proj_type_G_loc` (lines 325-332),
one spin block: `tmp = G_proj.copy()`; then for every partial-projector index
`ir` in `range(self.n_parproj[ish])`: `tmp.zero()`,
`tmp[bname] << self.downfold(..., ir=ir)` (overwriting `tmp` with the `ir`-th
projected contribution) and `G_proj += tmp`; starting from
`G_proj = G_inp.copy()`. -/
def projTypeGLocWien2k {dsh n : ℕ} (Ginp : Matrix (Fin dsh) (Fin dsh) CQ)
    (nParproj : ℕ) (P : ℕ → Matrix (Fin dsh) (Fin n) CQ)
    (Glatt : Matrix (Fin n) (Fin n) CQ) : Matrix (Fin dsh) (Fin dsh) CQ :=
  (List.range nParproj).foldl (fun Gproj ir => Gproj + downfold (P ir) Glatt) Ginp

/-- The per-k, per-shell accumulation of `partial_charges` (lines 998-1004),
one spin block: `tmp = G_loc[ish].copy()` (not zeroed); for every `ir`,
`tmp[bname] << self.downfold(..., ir=ir)` overwrites `tmp` and
`G_loc[ish] += tmp` runs inside the `ir` loop. -/
def partialChargesShellUpdate {dsh n : ℕ} (Gloc : Matrix (Fin dsh) (Fin dsh) CQ)
    (nParproj : ℕ) (P : ℕ → Matrix (Fin dsh) (Fin n) CQ)
    (Glatt : Matrix (Fin n) (Fin n) CQ) : Matrix (Fin dsh) (Fin dsh) CQ :=
  (List.range nParproj).foldl (fun acc ir => acc + downfold (P ir) Glatt) Gloc

theorem foldl_add_eq_sum {α M : Type _} [AddCommMonoid M] (f : α → M)
    (l : List α) (init : M) :
    l.foldl (fun acc x => acc + f x) init = init + (l.map f).sum := by
  induction l generalizing init with
  | nil => simp
  | cons a t ih => simp [ih, add_assoc]

/-- C3: for the wien2k (AngularMomentum) scheme, the per-k, per-shell
contribution returned by the dispatcher on a zeroed template equals the sum
over ALL `n_parproj[ish]` partial projectors of the projector-sandwiched
lattice Green's function, and the `partial_charges` loop adds exactly that
same full sum to the running local Green's function — no partial projector
is omitted in either code path. -/
theorem C3_wien2k_contribution_sums_all_projectors {dsh n : ℕ} (nParproj : ℕ)
    (P : ℕ → Matrix (Fin dsh) (Fin n) CQ) (Glatt : Matrix (Fin n) (Fin n) CQ)
    (Gloc : Matrix (Fin dsh) (Fin dsh) CQ) :
    projTypeGLocWien2k 0 nParproj P Glatt
        = ((List.range nParproj).map (fun ir => downfold (P ir) Glatt)).sum
      ∧ partialChargesShellUpdate Gloc nParproj P Glatt
        = Gloc + ((List.range nParproj).map (fun ir => downfold (P ir) Glatt)).sum := by
  constructor
  · rw [projTypeGLocWien2k, foldl_add_eq_sum, zero_add]
  · rw [partialChargesShellUpdate, foldl_add_eq_sum]

/-! ## Local-frame rotation (`rotloc` call sites, lines 244-248, 920-925,
1014-1018) -/

/-- Entrywise complex conjugation of a matrix. -/
def matConj {m n : ℕ} (A : Matrix (Fin m) (Fin n) CQ) : Matrix (Fin m) (Fin n) CQ :=
  A.conjTranspose.transpose

/-- Modelled from the spec: `SumkDFT.rotloc` (defined in `sumk_dft.py`, not
part of this source tree) maps a shell's Green's function to the local frame
with the shell's unitary rotation matrix and its time-reversal flag
(spec 4.4.2, data model "RotationSet": per-shell unitary matrix plus a
time-reversal sign).  Direction `toLocal`: without time reversal the result
is `R^H G R`; with time reversal the Green's function is transposed first and
sandwiched between `conj R` and `R^T`. -/
def rotloc {dsh : ℕ} (R : Matrix (Fin dsh) (Fin dsh) CQ) (timeInv : Bool)
    (G : Matrix (Fin dsh) (Fin dsh) CQ) : Matrix (Fin dsh) (Fin dsh) CQ :=
  if timeInv then matConj R * G.transpose * R.transpose
  else R.conjTranspose * G * R

/-- C8: a unitary local-frame rotation (with either time-reversal sign)
preserves the matrix trace of the local Green's function, hence the
shell-projected DOS computed from the trace is unchanged by the rotation
step. -/
theorem C8_rotloc_preserves_trace {dsh : ℕ}
    (R G : Matrix (Fin dsh) (Fin dsh) CQ) (timeInv : Bool)
    (hR : R.conjTranspose * R = 1) :
    Matrix.trace (rotloc R timeInv G) = Matrix.trace G := by
  cases timeInv with
  | false =>
      rw [rotloc]
      simp only [Bool.false_eq_true, if_false]
      rw [Matrix.trace_mul_comm, ← Matrix.mul_assoc,
        (Matrix.mul_eq_one_comm).mp hR, Matrix.one_mul]
  | true =>
      rw [rotloc]
      simp only [if_true]
      rw [Matrix.trace_mul_comm, ← Matrix.mul_assoc]
      have hconj : R.transpose * matConj R = 1 := by
        rw [matConj, ← Matrix.transpose_mul, hR, Matrix.transpose_one]
      rw [hconj, Matrix.one_mul, Matrix.trace_transpose]

/-- Concrete unitary rotation for the C8 witness: the 1x1 matrix `[[i]]`. -/
def c8R : Matrix (Fin 1) (Fin 1) CQ := Matrix.of fun _ _ => ⟨0, 1⟩

/-- Concrete local Green's function for the C8 witness. -/
def c8G : Matrix (Fin 1) (Fin 1) CQ := Matrix.of fun _ _ => ⟨2, 3⟩

theorem c8R_unitary : c8R.conjTranspose * c8R = 1 := by
  ext i j <;>
    (fin_cases i; fin_cases j;
      simp [c8R, Matrix.mul_apply, Matrix.one_apply, Fin.sum_univ_one])

/-- Witness for C8 at a concrete unitary rotation with time reversal set. -/
theorem C8_rotloc_preserves_trace_witness :
    c8R.conjTranspose * c8R = 1 ∧
      Matrix.trace (rotloc c8R true c8G) = Matrix.trace c8G :=
  ⟨c8R_unitary, C8_rotloc_preserves_trace c8R c8G true c8R_unitary⟩

/-! ## Correction-pipeline ordering (C2)

Program-order models of the reduction/correction events of the three
projected-observable code paths:

* `density_of_states` (lines 209-248): k-loop, `mpi.all_reduce`
  (lines 230-236), then — unless `proj_type` is 'vasp' or 'elk' —
  symmetrization when `self.symm_op != 0` (lines 238-243) and rotation when
  `self.use_rotations` (lines 244-248).
* `partial_charges` (lines 993-1018): k-loop, `mpi.all_reduce`
  (lines 1007-1008), symmetrization (lines 1012-1013), rotation
  (lines 1014-1018).
* `gen_Akw` (lines 900-941): inside the k-loop each k-point's projected
  contribution is rotated immediately when `self.use_rotations`
  (lines 919-925); the `mpi.all_reduce` happens afterwards (lines 933-941);
  no symmetrization is performed anywhere in `gen_Akw`.
-/

/-- One reduction/correction event of a projected-observable code path. -/
inductive CorrectionEv
  | kContrib (ik : ℕ)
  | reduce
  | symmetrizeEv
  | rotateEv
deriving DecidableEq, Repr

/-- Recursive checker for the C2 contract: tracks whether the cross-worker
reduction has happened (`reduced`) and whether a symmetrization has been
seen (`seenSymm`); every symmetrization/rotation must come after the
reduction, and every rotation must come after a symmetrization. -/
def correctionGo (reduced seenSymm : Bool) : List CorrectionEv → Bool
  | [] => true
  | CorrectionEv.reduce :: rest => correctionGo true seenSymm rest
  | CorrectionEv.symmetrizeEv :: rest => reduced && correctionGo reduced true rest
  | CorrectionEv.rotateEv :: rest =>
      reduced && seenSymm && correctionGo reduced seenSymm rest
  | CorrectionEv.kContrib _ :: rest => correctionGo reduced seenSymm rest

/-- The C2 contract on a code path's event list: corrections only on the
fully reduced data (after `reduce`), and symmetrize before any rotate. -/
def correctionContract (evs : List CorrectionEv) : Bool :=
  correctionGo false false evs

/-- Event trace of `density_of_states` (see section comment). -/
def dosEvents (n_k : ℕ) (symmOp useRotations skipCorrections : Bool) :
    List CorrectionEv :=
  (List.range n_k).map CorrectionEv.kContrib ++
    (CorrectionEv.reduce ::
      (if skipCorrections then []
       else (if symmOp then [CorrectionEv.symmetrizeEv] else []) ++
         (if useRotations then [CorrectionEv.rotateEv] else [])))

/-- Event trace of `partial_charges` (see section comment). -/
def partialChargesEvents (n_k : ℕ) (symmOp useRotations : Bool) :
    List CorrectionEv :=
  (List.range n_k).map CorrectionEv.kContrib ++
    (CorrectionEv.reduce ::
      ((if symmOp then [CorrectionEv.symmetrizeEv] else []) ++
        (if useRotations then [CorrectionEv.rotateEv] else [])))

/-- Event trace of `gen_Akw` (see section comment): per-k rotation inside
the sweep, reduction last, no symmetrization. -/
def genAkwEvents (n_k : ℕ) (useRotations : Bool) : List CorrectionEv :=
  ((List.range n_k).map (fun ik =>
      CorrectionEv.kContrib ik ::
        (if useRotations then [CorrectionEv.rotateEv] else []))).flatten ++
    [CorrectionEv.reduce]

theorem correctionGo_append_kContrib (l : List ℕ) (r s : Bool)
    (rest : List CorrectionEv) :
    correctionGo r s (l.map CorrectionEv.kContrib ++ rest) =
      correctionGo r s rest := by
  induction l with
  | nil => rfl
  | cons a t ih => simp [correctionGo, ih]

theorem dosEvents_contract_holds (n_k : ℕ) :
    correctionContract (dosEvents n_k true true false) = true := by
  unfold correctionContract dosEvents
  rw [correctionGo_append_kContrib]
  rfl

theorem partialChargesEvents_contract_holds (n_k : ℕ) :
    correctionContract (partialChargesEvents n_k true true) = true := by
  unfold correctionContract partialChargesEvents
  rw [correctionGo_append_kContrib]
  rfl

theorem genAkwEvents_contract_fails (m : ℕ) :
    correctionContract (genAkwEvents (m + 1) true) = false := by
  unfold correctionContract genAkwEvents
  rw [List.range_succ_eq_map]
  simp [correctionGo]

/-- C2 counterexample: as stated — corrections only on fully k-reduced data
and symmetrize-before-rotate in EVERY code path producing projected
observables — the claim fails on the concrete configuration with one
k-point, symmetrization and rotation both configured: `gen_Akw` rotates
per-k partial data before the reduction and never symmetrizes. -/
theorem C2_every_path_contract_counterexample :
    ¬ (correctionContract (dosEvents 1 true true false) = true ∧
       correctionContract (partialChargesEvents 1 true true) = true ∧
       correctionContract (genAkwEvents 1 true) = true) := by
  decide

/-- C2 amended: with symmetrization and rotation both configured, the
k-reducing paths `density_of_states` and `partial_charges` apply the
corrections only after the cross-worker reduction with symmetrization before
rotation, while `gen_Akw` (any nonempty k-range) violates that contract:
it rotates each k-point's contribution inside the sweep and never
symmetrizes. -/
theorem C2_corrections_ordering_amended (n_k : ℕ) (h : 1 ≤ n_k) :
    correctionContract (dosEvents n_k true true false) = true ∧
      correctionContract (partialChargesEvents n_k true true) = true ∧
      correctionContract (genAkwEvents n_k true) = false := by
  obtain ⟨m, rfl⟩ : ∃ m, n_k = m + 1 :=
    ⟨n_k - 1, (Nat.succ_pred_eq_of_pos h).symm⟩
  exact ⟨dosEvents_contract_holds _, partialChargesEvents_contract_holds _,
    genAkwEvents_contract_fails m⟩

/-- Witness for the amended C2 at one k-point. -/
theorem C2_corrections_ordering_amended_witness :
    1 ≤ 1 ∧
      (correctionContract (dosEvents 1 true true false) = true ∧
        correctionContract (partialChargesEvents 1 true true) = true ∧
        correctionContract (genAkwEvents 1 true) = false) :=
  ⟨by decide, C2_corrections_ordering_amended 1 (by decide)⟩

/-! ## Projection-scheme tag validation (C5) -/

/-- `s` is a leading segment of `t` (character lists). -/
def startsList : List Char → List Char → Bool
  | [], _ => true
  | _ :: _, [] => false
  | a :: as, b :: bs => a == b && startsList as bs

/-- `s` occurs as a contiguous substring of `t`: the semantics of Python's
`x in y` when `y` is a STRING rather than a tuple. -/
def substrList (s : List Char) : List Char → Bool
  | [] => s.isEmpty
  | b :: ts => startsList s (b :: ts) || substrList s ts

/-- `density_of_states` scheme validation (lines 119-124): a requested
scheme must belong to the tuple `('wann', 'vasp', 'wien2k')` and a
non-'wann' scheme must equal the backend `self.dft_code`. -/
def dosAcceptsScheme (tag : Option String) (dftCode : String) : Bool :=
  match tag with
  | none => true
  | some t =>
      (t == "wann" || t == "vasp" || t == "wien2k") && (t == "wann" || t == dftCode)

/-- `spaghettis` scheme validation (lines 707-710): tuple
`('wann', 'wien2k')` plus the backend check. -/
def spaghettisAcceptsScheme (tag : Option String) (dftCode : String) : Bool :=
  match tag with
  | none => true
  | some t => (t == "wann" || t == "wien2k") && (t == "wann" || t == dftCode)

/-- `spectral_contours` scheme validation (lines 522-523):
`assert proj_type in ('wann')`.  `('wann')` is a parenthesised STRING, not a
tuple, so the membership test is Python's substring test on `'wann'`. -/
def contoursAcceptsScheme (tag : Option String) : Bool :=
  match tag with
  | none => true
  | some t => substrList t.toList "wann".toList

/-- C5 (failing part, `spectral_contours`): the tag `'an'` is outside every
enumerated scheme set, yet the `spectral_contours` validation accepts it,
because `proj_type in ('wann')` tests substring membership in the string
`'wann'`.  (The claim requires every tag outside the enumeration to be
rejected.) -/
theorem C5_contours_accepts_non_enumerated_tag :
    contoursAcceptsScheme (some "an") = true ∧ "an" ≠ "wann" := by
  constructor
  · rfl
  · decide

/-! ## Archive input validation (C6) -/

/-- Failure modes of the missing-input check. -/
inductive PyFailure
  | attributeFailure
  | valueFailure (named : List String)
deriving DecidableEq, Repr

/-- Modelled from the spec: `SumkDFT.read_input_from_hdf` (defined in
`sumk_dft.py`, which is not under this source tree) reads the named entries
from an archive subgroup and returns (subgroup present, list of requested
names that were absent) — spec section 6: required named inputs are checked
against the persistent archive.  It assigns the entries it finds as object
attributes; it does NOT create a `values_not_read` attribute. -/
def readInputFromHdf (archive : List String) (thingsToRead : List String) :
    Bool × List String :=
  (true, thingsToRead.filter (fun it => !(archive.contains it)))

/-- The missing-input check pattern of `density_of_states` (lines 147-154),
`load_parproj` (lines 380-389), `spectral_contours` (lines 527-531),
`spaghettis` (lines 711-716) and `partial_charges` (lines 970-974):
`subgroup_present, values_not_read = self.read_input_from_hdf(...)`, then
`if len(values_not_read) > 0 and mpi.is_master_node: raise ValueError(...,
self.values_not_read)`.  The raise expression reads the ATTRIBUTE
`self.values_not_read` (modelled by `valuesNotReadAttr`), not the local
`values_not_read`; no code in the source ever assigns that attribute, so
evaluating the raise's arguments fails with AttributeError. -/
def missingInputCheck (valuesNotReadAttr : Option (List String))
    (archive : List String) (thingsToRead : List String) :
    Except PyFailure Unit :=
  let vnr := (readInputFromHdf archive thingsToRead).2
  if vnr.isEmpty then Except.ok ()
  else
    match valuesNotReadAttr with
    | none => Except.error PyFailure.attributeFailure
    | some l => Except.error (PyFailure.valueFailure l)

/-- C6 (failing part): on an archive missing the required entry `'occik'`,
the check fails with AttributeError (the never-assigned
`self.values_not_read`), not with an error naming exactly the absent
items. -/
theorem C6_missing_input_check_names_nothing :
    missingInputCheck none ["n_k"] ["occik"] =
        Except.error PyFailure.attributeFailure ∧
      Except.error PyFailure.attributeFailure ≠
        (Except.error (PyFailure.valueFailure ["occik"]) : Except PyFailure Unit) := by
  constructor
  · rfl
  · simp

/-! ## Shell-list validation in `gen_Akw` (C7) -/

/-- `gen_Akw` shell-list validation (lines 873-877): raise `IOError` unless
every requested index `ish` satisfies `not (ish > n_shells or ish < 0)`. -/
def shellListAccepted (shellList : List ℤ) (nShells : ℤ) : Bool :=
  shellList.all (fun ish => !(ish > nShells || ish < 0))

/-- C7 (failing part): with `n_shells = 2` the out-of-range shell index 2
(valid indices are 0 and 1) passes the validation — the code compares with
`ish > n_shells` instead of `ish >= n_shells` — so no error is raised before
the sweep. -/
theorem C7_shell_index_equal_n_shells_accepted :
    shellListAccepted [2] 2 = true ∧ ¬((2 : ℤ) < 2) := by
  constructor
  · rfl
  · decide

/-! ## Stacking offset in `gen_Akw` (C9) -/

/-- Total-A(k,w) per-k spin loop of `gen_Akw` (lines 905-909) at a fixed
frequency: for each spin block `bname`, `Akw[bname][ik]` is assigned the
trace term and then `Akw[bname][ik] += ik * plot_shift`. -/
def genAkwTotalEntry {Spin : Type _} (data : Spin → ℚ) (ik : ℕ)
    (plotShift : ℚ) (bname : Spin) : ℚ :=
  data bname + (ik : ℚ) * plotShift

/-- Projected-A(k,w) per-k spin loop of `gen_Akw` (lines 926-931) at a fixed
shell, frequency and orbital pair, starting from the zero-initialised
arrays: iterating `for bname, gf in G_loc[ish]` over the spin blocks `spn`
in order (modelled as an arbitrary label type, e.g. 0 for 'up' and 1 for
'down'), the code assigns `pAkw_orb[ish][bname][ik,...] = ...` and then
executes `pAkw_orb[ish][sp][ik] += ik * plot_shift`, where `sp` is the STALE
loop variable left over from the set-up loop at line 891 — the LAST entry of
`spn` — not `bname`. -/
def genAkwProjShiftLoop {Spin : Type _} [DecidableEq Spin] [Inhabited Spin]
    (spn : List Spin) (data : Spin → ℚ) (shift : ℚ) : Spin → ℚ :=
  let spLast := spn.getLastD default
  spn.foldl
    (fun st bname =>
      let st1 := fun name => if name = bname then data bname else st name
      fun name => if name = spLast then st1 spLast + shift else st1 name)
    (fun _ => 0)

/-- C9 (failing part): with two spin blocks `['up', 'down']`, data 0 for
both, and a nonzero stacking offset `ik * plot_shift = 1`, the projected
spectral entry of the FIRST spin block receives no offset while the last
spin block receives it once — the offset is not applied identically to every
spin block (the total `Akw` loop, by contrast, shifts each spin block
once). -/
theorem C9_projected_shift_misapplied :
    genAkwProjShiftLoop [0, 1] (fun _ => 0) 1 0 = 0 ∧
      genAkwProjShiftLoop [0, 1] (fun _ => 0) 1 1 = 1 ∧
      genAkwTotalEntry (fun _ : ℕ => 0) 1 1 0 = 1 ∧
      (0 : ℚ) ≠ 1 := by
  refine ⟨?_, ?_, ?_, by norm_num⟩
  · norm_num [genAkwProjShiftLoop]
  · norm_num [genAkwProjShiftLoop]
  · norm_num [genAkwTotalEntry]

/-! ## Frequency-mesh selection (C10) -/

/-- Kind of a frequency mesh (`MeshReFreq` vs `MeshImFreq`). -/
inductive MeshKind
  | reFreq
  | imFreq
deriving DecidableEq, Repr

/-- A frequency mesh object: its kind plus an identifier distinguishing
distinct mesh objects. -/
structure FreqMesh where
  kind : MeshKind
  ident : ℕ
deriving DecidableEq, Repr

/-- The mesh-selection prologue shared verbatim by `density_of_states`
(lines 126-140), `spectral_contours` (lines 535-549) and `spaghettis`
(lines 722-736): with `with_Sigma` the self-energy mesh is asserted real and
used — the caller's `mesh` argument is never consulted; otherwise the
caller's mesh (if supplied) is used, else `self.mesh`; each alternative
asserts `MeshReFreq`; with no mesh available at all the routine asserts
out. -/
def selectMesh (withSigma : Bool) (sigmaMesh : FreqMesh)
    (meshArg : Option FreqMesh) (selfMesh : Option FreqMesh) :
    Except String FreqMesh :=
  if withSigma then
    if sigmaMesh.kind = MeshKind.reFreq then Except.ok sigmaMesh
    else Except.error "SumkDFT.mesh must be real if with_Sigma is True"
  else
    match meshArg with
    | some m =>
        if m.kind = MeshKind.reFreq then Except.ok m
        else Except.error "mesh must be of form MeshReFreq"
    | none =>
        match selfMesh with
        | some m =>
            if m.kind = MeshKind.reFreq then Except.ok m
            else Except.error "self.mesh must be of form MeshReFreq"
        | none =>
            Except.error "ReFreqMesh input required for calculations without real frequency self-energy"

/-- C10: with `with_Sigma=True` the mesh actually used is the self-energy's
real-frequency mesh, whatever mesh the caller supplies (the result is the
same for every `meshArg`); a caller-supplied real-frequency mesh takes
effect exactly when `with_Sigma=False`. -/
theorem C10_with_sigma_overrides_mesh_argument (sigmaMesh m : FreqMesh)
    (meshArg selfMesh : Option FreqMesh)
    (hs : sigmaMesh.kind = MeshKind.reFreq) (hm : m.kind = MeshKind.reFreq) :
    selectMesh true sigmaMesh meshArg selfMesh = Except.ok sigmaMesh ∧
      selectMesh false sigmaMesh (some m) selfMesh = Except.ok m := by
  constructor
  · simp [selectMesh, hs]
  · simp [selectMesh, hm]

/-- Witness for C10 at concrete meshes: the self-energy mesh (ident 0) wins
over a supplied caller mesh (ident 5) when `with_Sigma=True`; the caller
mesh is used when `with_Sigma=False`. -/
theorem C10_with_sigma_overrides_mesh_argument_witness :
    (FreqMesh.mk MeshKind.reFreq 0).kind = MeshKind.reFreq ∧
      (FreqMesh.mk MeshKind.reFreq 5).kind = MeshKind.reFreq ∧
      (selectMesh true (FreqMesh.mk MeshKind.reFreq 0)
          (some (FreqMesh.mk MeshKind.reFreq 5)) none =
        Except.ok (FreqMesh.mk MeshKind.reFreq 0) ∧
      selectMesh false (FreqMesh.mk MeshKind.reFreq 0)
          (some (FreqMesh.mk MeshKind.reFreq 5)) none =
        Except.ok (FreqMesh.mk MeshKind.reFreq 5)) :=
  ⟨rfl, rfl,
    C10_with_sigma_overrides_mesh_argument (FreqMesh.mk MeshKind.reFreq 0)
      (FreqMesh.mk MeshKind.reFreq 5) (some (FreqMesh.mk MeshKind.reFreq 5))
      none rfl rfl⟩

/-! Supporting facts about the tuple-based validators (the two entry points
whose membership tests really are tuples). -/

theorem dosAcceptsScheme_only_enumerated (t dftCode : String)
    (h : dosAcceptsScheme (some t) dftCode = true) :
    t = "wann" ∨ t = "vasp" ∨ t = "wien2k" := by
  simp [dosAcceptsScheme] at h
  tauto

theorem spaghettisAcceptsScheme_wann_any_backend (dftCode : String) :
    spaghettisAcceptsScheme (some "wann") dftCode = true := rfl
